import Mathlib

/-!
Verification of the playwright-video repository core:
the timeline/segmentation engine (`src/cli.mts`) and the interaction
choreography engine (`src/utils.mjs`).

Numbers of the source (JavaScript numbers) are embedded as exact
rationals (`ℚ`); timestamps (`Date.now()` values, milliseconds) as
integers (`ℤ`).  Effectful primitives issued to the page-control
surface are embedded as explicit traces of issued actions, and
fallible operations return `Except`.
-/

namespace PlaywrightVideo

/-! ## Timeline / segmentation engine (`src/cli.mts`) -/

/-- Kind of a recording mark, `"pause"` or `"resume"` (type `Mark` of the source). -/
inductive MarkType
  | pause
  | resume
deriving DecidableEq, Repr

/-- A timestamped pause/resume event; `timestamp` is a `Date.now()` value in
milliseconds. -/
structure Mark where
  type : MarkType
  timestamp : ℤ
deriving DecidableEq, Repr

/-- A derived inclusion time range, in seconds relative to recording start
(structure `Segment` of `src/cli.mts`). -/
structure Segment where
  start : ℚ
  «end» : ℚ
deriving DecidableEq, Repr

/-- Loop of `marksToSegments` (`src/cli.mts`), with the mutable
`resumeTime` variable made an explicit `Option ℤ` accumulator:
a `resume` mark overwrites the tracked timestamp, a `pause` mark with a
tracked resume emits one segment and clears the tracker. -/
def marksToSegmentsAux (startedAt : ℤ) : List Mark → Option ℤ → List Segment
  | [], _ => []
  | m :: rest, resumeTime =>
    match m.type, resumeTime with
    | .resume, _ => marksToSegmentsAux startedAt rest (some m.timestamp)
    | .pause, some rt =>
        ⟨((rt - startedAt : ℤ) : ℚ) / 1000, ((m.timestamp - startedAt : ℤ) : ℚ) / 1000⟩
          :: marksToSegmentsAux startedAt rest none
    | .pause, none => marksToSegmentsAux startedAt rest none

/-- `marksToSegments(marks, startedAt)` of `src/cli.mts`: convert pause/resume
marks to the time segments to be included in the video. -/
def marksToSegments (marks : List Mark) (startedAt : ℤ) : List Segment :=
  marksToSegmentsAux startedAt marks none

/-- Claim C1: `marksToSegments` scans left to right tracking the most recent
unmatched resume; consecutive resumes collapse to the latest; each pause with a
tracked resume emits exactly the segment
`{start := (resumeTs - startedAt)/1000, end := (pauseTs - startedAt)/1000}` and
clears the tracker; the two concrete mark lists of the spec produce
`[{1,2},{5,8}]` and `[{2,4}]` respectively. -/
theorem marksToSegments_spec :
    (∀ (startedAt rt tp : ℤ) (rest : List Mark),
      marksToSegmentsAux startedAt (⟨.pause, tp⟩ :: rest) (some rt) =
        ⟨((rt - startedAt : ℤ) : ℚ) / 1000, ((tp - startedAt : ℤ) : ℚ) / 1000⟩
          :: marksToSegmentsAux startedAt rest none) ∧
    (∀ (startedAt t1 t2 : ℤ) (rest : List Mark) (r : Option ℤ),
      marksToSegmentsAux startedAt (⟨.resume, t1⟩ :: ⟨.resume, t2⟩ :: rest) r =
        marksToSegmentsAux startedAt (⟨.resume, t2⟩ :: rest) r) ∧
    marksToSegments
        [⟨.pause, 0⟩, ⟨.resume, 1000⟩, ⟨.pause, 2000⟩, ⟨.resume, 5000⟩, ⟨.pause, 8000⟩] 0 =
      [⟨1, 2⟩, ⟨5, 8⟩] ∧
    marksToSegments [⟨.pause, 0⟩, ⟨.resume, 1000⟩, ⟨.resume, 2000⟩, ⟨.pause, 4000⟩] 0 =
      [⟨2, 4⟩] := by
  refine ⟨fun startedAt rt tp rest => rfl, fun startedAt t1 t2 rest r => rfl, ?_, ?_⟩ <;>
    norm_num [marksToSegments, marksToSegmentsAux]

/-- Offset of a timestamp from the recording start, in seconds, as computed by
`marksToSegments`. -/
def tsOffset (startedAt t : ℤ) : ℚ :=
  ((t - startedAt : ℤ) : ℚ) / 1000

theorem tsOffset_mono {startedAt a b : ℤ} (h : a ≤ b) :
    tsOffset startedAt a ≤ tsOffset startedAt b := by
  unfold tsOffset
  have hc : ((a - startedAt : ℤ) : ℚ) ≤ ((b - startedAt : ℤ) : ℚ) := by
    exact_mod_cast sub_le_sub_right h startedAt
  exact div_le_div_of_nonneg_right hc (by norm_num)

theorem marksToSegmentsAux_sorted (startedAt : ℤ) :
    ∀ (marks : List Mark) (r : Option ℤ),
      marks.Pairwise (fun a b => a.timestamp ≤ b.timestamp) →
      (∀ t, r = some t → ∀ m ∈ marks, t ≤ m.timestamp) →
      (∀ s ∈ marksToSegmentsAux startedAt marks r, s.start ≤ s.«end») ∧
      (marksToSegmentsAux startedAt marks r).Chain' (fun a b => a.«end» ≤ b.start) ∧
      (∀ lb : ℤ, (∀ m ∈ marks, lb ≤ m.timestamp) → (∀ t, r = some t → lb ≤ t) →
        ∀ s ∈ marksToSegmentsAux startedAt marks r, tsOffset startedAt lb ≤ s.start) := by
  intro marks
  induction marks with
  | nil => intro r _ _; simp [marksToSegmentsAux]
  | cons m rest ih =>
    intro r hp hr
    have hrest : rest.Pairwise (fun a b => a.timestamp ≤ b.timestamp) :=
      (List.pairwise_cons.mp hp).2
    have hmle : ∀ m' ∈ rest, m.timestamp ≤ m'.timestamp :=
      (List.pairwise_cons.mp hp).1
    match htype : m.type, r with
    | .resume, r =>
      have h1 := ih (some m.timestamp) hrest
        (by intro t ht m' hm'; injection ht with ht; subst ht; exact hmle m' hm')
      simp only [marksToSegmentsAux, htype]
      refine ⟨h1.1, h1.2.1, ?_⟩
      intro lb hlb hlbr s hs
      exact h1.2.2 lb (fun m' hm' => hlb m' (List.mem_cons_of_mem m hm'))
        (by intro t ht; injection ht with ht; subst ht; exact hlb m (List.mem_cons_self m rest)) s hs
    | .pause, none =>
      have h1 := ih none hrest (by intro t ht; cases ht)
      simp only [marksToSegmentsAux, htype]
      refine ⟨h1.1, h1.2.1, ?_⟩
      intro lb hlb hlbr s hs
      exact h1.2.2 lb (fun m' hm' => hlb m' (List.mem_cons_of_mem m hm')) (by intro t ht; cases ht) s hs
    | .pause, some rt =>
      have hrtm : rt ≤ m.timestamp := hr rt rfl m (List.mem_cons_self m rest)
      have h1 := ih none hrest (by intro t ht; cases ht)
      have hnext : ∀ s ∈ marksToSegmentsAux startedAt rest none,
          tsOffset startedAt m.timestamp ≤ s.start :=
        h1.2.2 m.timestamp hmle (by intro t ht; cases ht)
      simp only [marksToSegmentsAux, htype]
      refine ⟨?_, ?_, ?_⟩
      · intro s hs
        rcases List.mem_cons.mp hs with h | h
        · subst h; exact tsOffset_mono hrtm
        · exact h1.1 s h
      · refine List.chain'_cons'.mpr ⟨?_, h1.2.1⟩
        intro b hb
        exact hnext b (List.mem_of_mem_head? hb)
      · intro lb hlb hlbr s hs
        rcases List.mem_cons.mp hs with h | h
        · subst h; exact tsOffset_mono (hlbr rt rfl)
        · exact le_trans (tsOffset_mono (hlb m (List.mem_cons_self m rest))) (hnext s h)

/-- Claim C7: for marks whose timestamps are non-decreasing in insertion order,
every derived segment satisfies `start ≤ end`, and consecutive segments are in
non-decreasing time order (previous `end` ≤ next `start`). -/
theorem marksToSegments_sorted (marks : List Mark) (startedAt : ℤ)
    (hsorted : marks.Pairwise (fun a b => a.timestamp ≤ b.timestamp)) :
    (∀ s ∈ marksToSegments marks startedAt, s.start ≤ s.«end») ∧
    (marksToSegments marks startedAt).Chain' (fun a b => a.«end» ≤ b.start) := by
  have h := marksToSegmentsAux_sorted startedAt marks none hsorted (by intro t ht; cases ht)
  exact ⟨h.1, h.2.1⟩

/-- Witness for claim C7 at the spec's five-mark example. -/
theorem marksToSegments_sorted_witness :
    (∀ s ∈ marksToSegments
        [⟨.pause, 0⟩, ⟨.resume, 1000⟩, ⟨.pause, 2000⟩, ⟨.resume, 5000⟩, ⟨.pause, 8000⟩] 0,
      s.start ≤ s.«end») ∧
    (marksToSegments
        [⟨.pause, 0⟩, ⟨.resume, 1000⟩, ⟨.pause, 2000⟩, ⟨.resume, 5000⟩, ⟨.pause, 8000⟩] 0).Chain'
      (fun a b => a.«end» ≤ b.start) :=
  marksToSegments_sorted
    [⟨.pause, 0⟩, ⟨.resume, 1000⟩, ⟨.pause, 2000⟩, ⟨.resume, 5000⟩, ⟨.pause, 8000⟩] 0
    (by decide)

/-- Rendering of one segment inside the ffmpeg select filter string of
`buildSelectFilter` (`src/cli.mts`). -/
def segmentExpr (s : Segment) : String :=
  "between(t," ++ toString s.start ++ "," ++ toString s.«end» ++ ")"

/-- `buildSelectFilter(segments)` of `src/cli.mts`: builds the ffmpeg select
filter expression, e.g. `between(t,0,5)+between(t,8,12)`; for an empty segment
list it yields `between(t,0,0)`. -/
def buildSelectFilter (segments : List Segment) : String :=
  if segments.length = 0 then "between(t,0,0)"
  else String.intercalate "+" (segments.map segmentExpr)

/-- Inclusion ranges denoted by the select filter string, one `(start, end)`
pair per `between(t,start,end)` term, in the order the terms are rendered. -/
def selectTerms (segments : List Segment) : List (ℚ × ℚ) :=
  if segments.length = 0 then [(0, 0)]
  else segments.map fun s => (s.start, s.«end»)

/-- Denotation of one `between(t,a,b)` term of the ffmpeg select expression:
true exactly when `a ≤ t ≤ b`. -/
def betweenHolds (a b t : ℚ) : Bool :=
  decide (a ≤ t ∧ t ≤ b)

/-- Denotation of the whole select expression (a `+`-union of `between` terms):
the stream timestamp `t` is selected iff some term includes it. -/
def selectFilterHolds (terms : List (ℚ × ℚ)) (t : ℚ) : Bool :=
  terms.any fun p => betweenHolds p.1 p.2 t

/-- Rendering of one `(start, end)` term of the select expression. -/
def termExpr (p : ℚ × ℚ) : String :=
  "between(t," ++ toString p.1 ++ "," ++ toString p.2 ++ ")"

/-- Claim C8: on an empty segment list the filter is the single zero-length
range at time 0; on a non-empty list it is the union of one inclusion predicate
per segment, in segment order, and the rendered string is exactly the
`+`-join of those terms; a timestamp is selected iff some segment's
`start ≤ t ≤ end`. -/
theorem buildSelectFilter_spec :
    (selectTerms [] = [(0, 0)] ∧ buildSelectFilter [] = "between(t,0,0)") ∧
    (∀ segments : List Segment, segments ≠ [] →
      selectTerms segments = segments.map fun s => (s.start, s.«end»)) ∧
    (∀ segments : List Segment,
      buildSelectFilter segments = String.intercalate "+" ((selectTerms segments).map termExpr)) ∧
    (∀ (segments : List Segment) (t : ℚ), segments ≠ [] →
      (selectFilterHolds (selectTerms segments) t = true ↔
        ∃ s ∈ segments, s.start ≤ t ∧ t ≤ s.«end»)) := by
  refine ⟨⟨rfl, rfl⟩, ?_, ?_, ?_⟩
  · intro segments hne
    simp [selectTerms, List.length_eq_zero, hne]
  · intro segments
    rcases segments with _ | ⟨s, rest⟩
    · rfl
    · simp only [buildSelectFilter, selectTerms, List.length_cons, Nat.succ_ne_zero, if_false,
        List.map_map]
      rfl
  · intro segments t hne
    simp [selectFilterHolds, selectTerms, List.length_eq_zero, hne, betweenHolds,
      List.any_map, List.any_eq_true, Function.comp]

/-- Witness for claim C8 at a one-segment list and timestamp 3/2. -/
theorem buildSelectFilter_spec_witness :
    selectFilterHolds (selectTerms [⟨1, 2⟩]) (3 / 2) = true ↔
      ∃ s ∈ [(⟨1, 2⟩ : Segment)], s.start ≤ 3 / 2 ∧ (3 / 2 : ℚ) ≤ s.«end» :=
  buildSelectFilter_spec.2.2.2 [⟨1, 2⟩] (3 / 2) (by simp)

/-- One ffmpeg invocation issued by `processVideoSegments` (`src/cli.mts`):
input path, output path and the select filter expression passed to `-vf`/`-af`. -/
structure FfmpegInvocation where
  inputPath : String
  outputPath : String
  selectExpr : String
deriving DecidableEq, Repr

/-- `processVideoSegments(inputPath, outputPath, segments)` of `src/cli.mts`,
embedded as the invocation it issues: it returns immediately (issuing nothing
and writing nothing) when the segment list is empty, otherwise it runs ffmpeg
once with the select filter built from the segments. -/
def processVideoSegments (inputPath outputPath : String) (segments : List Segment) :
    Option FfmpegInvocation :=
  if segments.length = 0 then none
  else some ⟨inputPath, outputPath, buildSelectFilter segments⟩

/-- End of the `export` action in `cli` (`src/cli.mts`): a final `pause` mark is
appended iff the last recorded mark is a `resume`. -/
def finalizeMarks (marks : List Mark) (endTime : ℤ) : List Mark :=
  if marks.getLast?.map Mark.type = some .resume then marks ++ [⟨.pause, endTime⟩]
  else marks

/-- What the `export` action does with the raw capture (`src/cli.mts`,
`if (videoPath)` block): either a verbatim copy of the raw video to the output
path, one ffmpeg transcode, or no output at all. -/
inductive VideoStep
  | copied (src dst : String)
  | transcoded (inv : FfmpegInvocation)
  | noOutput
deriving DecidableEq, Repr

/-- Post-script video handling of the `export` action (`src/cli.mts`): after
appending the synthetic final pause, derive segments; if more than 2 marks were
recorded run `processVideoSegments`, otherwise copy the raw capture verbatim. -/
def cliVideoStep (marks : List Mark) (startedAt endTime : ℤ) (videoPath outputPath : String) :
    VideoStep :=
  let fm := finalizeMarks marks endTime
  let segments := marksToSegments fm startedAt
  if 2 < fm.length then
    match processVideoSegments videoPath outputPath segments with
    | none => .noOutput
    | some inv => .transcoded inv
  else .copied videoPath outputPath

/-- Counterexample to claim C4 as stated: the mark sequence consisting of the
implicit initial pause plus one resume/pause pair has 3 marks, and the code
invokes the range-selection path on it instead of passing the raw recording
through unchanged. -/
theorem cliVideoStep_pair_counterexample :
    cliVideoStep [⟨.pause, 0⟩, ⟨.resume, 1000⟩, ⟨.pause, 2000⟩] 0 3000 "raw.webm" "out.webm" ≠
        VideoStep.copied "raw.webm" "out.webm" ∧
      ([⟨.pause, 0⟩, ⟨.resume, 1000⟩, ⟨.pause, 2000⟩] : List Mark).length = 3 := by
  refine ⟨?_, rfl⟩
  have hfin : finalizeMarks [⟨.pause, 0⟩, ⟨.resume, 1000⟩, ⟨.pause, 2000⟩] 3000 =
      [⟨.pause, 0⟩, ⟨.resume, 1000⟩, ⟨.pause, 2000⟩] := by decide
  have hseg : marksToSegments [⟨.pause, 0⟩, ⟨.resume, 1000⟩, ⟨.pause, 2000⟩] 0 = [⟨1, 2⟩] := by
    norm_num [marksToSegments, marksToSegmentsAux]
  intro hc
  unfold cliVideoStep at hc
  rw [hfin] at hc
  simp only [hseg] at hc
  norm_num [processVideoSegments] at hc
  exact VideoStep.noConfusion hc

/-- Claim C4 (amended): the raw recording is passed through unchanged exactly
when the finalized mark sequence has at most 2 marks; with more than 2 marks and
a non-empty derived segment list, the range-selection path is invoked on the
derived segments; moreover, for a sequence starting with the implicit initial
pause, at most 2 finalized marks force an empty segment list (no resume/pause
pair at all). -/
theorem cliVideoStep_passthrough_iff (marks : List Mark) (startedAt endTime : ℤ)
    (videoPath outputPath : String) :
    (cliVideoStep marks startedAt endTime videoPath outputPath =
        VideoStep.copied videoPath outputPath ↔
      (finalizeMarks marks endTime).length ≤ 2) ∧
    (2 < (finalizeMarks marks endTime).length →
      marksToSegments (finalizeMarks marks endTime) startedAt ≠ [] →
      cliVideoStep marks startedAt endTime videoPath outputPath =
        VideoStep.transcoded ⟨videoPath, outputPath,
          buildSelectFilter (marksToSegments (finalizeMarks marks endTime) startedAt)⟩) ∧
    ((marks.head?.map Mark.type = some .pause ∨ marks = []) →
      (finalizeMarks marks endTime).length ≤ 2 →
      marksToSegments (finalizeMarks marks endTime) startedAt = []) := by
  refine ⟨?_, ?_, ?_⟩
  · unfold cliVideoStep
    by_cases h : 2 < (finalizeMarks marks endTime).length
    · simp only [h, if_true]
      constructor
      · intro hc
        cases hp : processVideoSegments videoPath outputPath
            (marksToSegments (finalizeMarks marks endTime) startedAt) <;>
          simp [hp] at hc
      · intro hle; omega
    · simp only [h, if_false]
      constructor
      · intro _; omega
      · intro _; trivial
  · intro hlen hseg
    unfold cliVideoStep
    simp only [hlen, if_true]
    have : (marksToSegments (finalizeMarks marks endTime) startedAt).length ≠ 0 := by
      simpa [List.length_eq_zero] using hseg
    simp [processVideoSegments, this]
  · intro hhead hlen
    have hml : marks.length ≤ 2 := by
      have : marks.length ≤ (finalizeMarks marks endTime).length := by
        unfold finalizeMarks
        by_cases h : marks.getLast?.map Mark.type = some MarkType.resume <;> simp [h]
      omega
    match marks, hhead with
    | [], _ => simp [finalizeMarks, marksToSegments, marksToSegmentsAux]
    | [m], hhead =>
      have hm : m.type = .pause := by
        rcases hhead with h | h
        · simpa using h
        · cases h
      unfold finalizeMarks
      have hlast : ([m] : List Mark).getLast?.map Mark.type = some m.type := rfl
      rw [hlast, hm]
      simp [marksToSegments, marksToSegmentsAux, hm]
    | [m1, m2], hhead =>
      have hm1 : m1.type = .pause := by
        rcases hhead with h | h
        · simpa using h
        · cases h
      have hm2 : m2.type = .pause := by
        by_contra hne
        have hm2r : m2.type = .resume := by
          cases h2 : m2.type
          · exact absurd h2 hne
          · rfl
        have hlast : ([m1, m2] : List Mark).getLast?.map Mark.type = some m2.type := rfl
        unfold finalizeMarks at hlen
        rw [hlast, hm2r] at hlen
        simp at hlen
      unfold finalizeMarks
      have hlast : ([m1, m2] : List Mark).getLast?.map Mark.type = some m2.type := rfl
      rw [hlast, hm2]
      simp [marksToSegments, marksToSegmentsAux, hm1, hm2]
    | m1 :: m2 :: m3 :: rest, _ => simp at hml

/-- Witness for claim C4 (amended): the single resume/pause pair after the
initial pause takes the transcode path, and a lone initial pause mark is copied
verbatim with no segments. -/
theorem cliVideoStep_passthrough_iff_witness :
    cliVideoStep [⟨.pause, 0⟩, ⟨.resume, 1000⟩, ⟨.pause, 2000⟩] 0 3000 "raw.webm" "out.webm" =
        VideoStep.transcoded ⟨"raw.webm", "out.webm",
          buildSelectFilter (marksToSegments
            (finalizeMarks [⟨.pause, 0⟩, ⟨.resume, 1000⟩, ⟨.pause, 2000⟩] 3000) 0)⟩ ∧
      (cliVideoStep [⟨.pause, 0⟩] 0 3000 "raw.webm" "out.webm" =
          VideoStep.copied "raw.webm" "out.webm" ↔
        (finalizeMarks [⟨.pause, 0⟩] 3000).length ≤ 2) ∧
      marksToSegments (finalizeMarks [⟨.pause, 0⟩] 3000) 0 = [] := by
  refine ⟨?_, ?_, ?_⟩
  · exact (cliVideoStep_passthrough_iff [⟨.pause, 0⟩, ⟨.resume, 1000⟩, ⟨.pause, 2000⟩] 0 3000
      "raw.webm" "out.webm").2.1 (by decide)
      (by norm_num [finalizeMarks, marksToSegments, marksToSegmentsAux])
  · exact (cliVideoStep_passthrough_iff [⟨.pause, 0⟩] 0 3000 "raw.webm" "out.webm").1
  · exact (cliVideoStep_passthrough_iff [⟨.pause, 0⟩] 0 3000 "raw.webm" "out.webm").2.2
      (Or.inl rfl) (by decide)

/-- Claim C9: with an empty derived segment list, `processVideoSegments` issues
no ffmpeg invocation and writes nothing; an invocation is issued only for a
non-empty segment list; and in the cli flow, more than 2 marks with no derived
segment produce no output video at all. -/
theorem processVideoSegments_empty (inputPath outputPath : String) :
    processVideoSegments inputPath outputPath [] = none ∧
    (∀ (segments : List Segment) (inv : FfmpegInvocation),
      processVideoSegments inputPath outputPath segments = some inv → segments ≠ []) ∧
    (∀ (marks : List Mark) (startedAt endTime : ℤ),
      2 < (finalizeMarks marks endTime).length →
      marksToSegments (finalizeMarks marks endTime) startedAt = [] →
      cliVideoStep marks startedAt endTime inputPath outputPath = VideoStep.noOutput) := by
  refine ⟨rfl, ?_, ?_⟩
  · intro segments inv hinv hne
    subst hne
    simp [processVideoSegments] at hinv
  · intro marks startedAt endTime hlen hseg
    unfold cliVideoStep
    simp [hlen, hseg, processVideoSegments]

/-- Witness for claim C9 at three pause marks (more than 2 marks, no
resume/pause pair, hence no segments and no output). -/
theorem processVideoSegments_empty_witness :
    cliVideoStep [⟨.pause, 0⟩, ⟨.pause, 1⟩, ⟨.pause, 2⟩] 0 3000 "raw.webm" "out.webm" =
      VideoStep.noOutput :=
  (processVideoSegments_empty "raw.webm" "out.webm").2.2
    [⟨.pause, 0⟩, ⟨.pause, 1⟩, ⟨.pause, 2⟩] 0 3000 (by decide)
    (by norm_num [finalizeMarks, marksToSegments, marksToSegmentsAux])

/-! ## Choreography engine (`src/utils.mjs`): `waitUntilSatisfied` -/

/-- Outcome of `waitUntilSatisfied`: normal return or thrown `Timeout!`, each
carrying the number of predicate evaluations that were performed. -/
inductive WaitResult
  | ok (evals : ℕ)
  | timedOut (evals : ℕ)
deriving DecidableEq, Repr

/-- Number of predicate evaluations performed. -/
def WaitResult.evals : WaitResult → ℕ
  | .ok n => n
  | .timedOut n => n

/-- Loop of `waitUntilSatisfied(callback, timeout)` (`src/utils.mjs`): while the
remaining `timeout` is positive, evaluate the callback; return on a truthy
result, otherwise sleep 10 ms and decrement the countdown by 10 (not by wall
clock).  The effectful callback is embedded as the stream `f` of its successive
results; `k` counts the evaluations already performed. -/
def waitLoop (f : ℕ → Bool) (timeout : ℚ) (k : ℕ) : WaitResult :=
  if h : 0 < timeout then
    if f k then .ok (k + 1)
    else waitLoop f (timeout - 10) (k + 1)
  else .timedOut k
termination_by (⌈timeout / 10⌉).toNat
decreasing_by
  have h1 : ⌈(timeout - 10) / 10⌉ = ⌈timeout / 10⌉ - 1 := by
    rw [sub_div, show (10 : ℚ) / 10 = 1 by norm_num, Int.ceil_sub_one]
  have h2 : 0 < ⌈timeout / 10⌉ := Int.ceil_pos.mpr (by positivity)
  omega

/-- `waitUntilSatisfied(callback, timeout)` of `src/utils.mjs` (default timeout
2000 ms in the source). -/
def waitUntilSatisfied (f : ℕ → Bool) (timeout : ℚ) : WaitResult :=
  waitLoop f timeout 0

/-- Fuel-indexed form of the poll loop: `n` remaining polls. -/
def pollLoop (f : ℕ → Bool) : ℕ → ℕ → WaitResult
  | 0, k => .timedOut k
  | n + 1, k => if f k then .ok (k + 1) else pollLoop f n (k + 1)

theorem waitLoop_eq_pollLoop (f : ℕ → Bool) :
    ∀ (N : ℕ) (timeout : ℚ) (k : ℕ), (⌈timeout / 10⌉).toNat = N →
      waitLoop f timeout k = pollLoop f N k := by
  intro N
  induction N with
  | zero =>
    intro timeout k hN
    have ht : ¬ 0 < timeout := by
      intro h
      have : 0 < ⌈timeout / 10⌉ := Int.ceil_pos.mpr (by positivity)
      omega
    rw [waitLoop]
    simp [ht, pollLoop]
  | succ n ih =>
    intro timeout k hN
    have ht : 0 < timeout := by
      by_contra h
      push_neg at h
      have hd : timeout / 10 ≤ 0 := div_nonpos_of_nonpos_of_nonneg h (by norm_num)
      have : ⌈timeout / 10⌉ ≤ 0 := Int.ceil_le.mpr (by simpa using hd)
      omega
    have h1 : ⌈(timeout - 10) / 10⌉ = ⌈timeout / 10⌉ - 1 := by
      rw [sub_div, show (10 : ℚ) / 10 = 1 by norm_num, Int.ceil_sub_one]
    have h2 : 0 < ⌈timeout / 10⌉ := Int.ceil_pos.mpr (by positivity)
    have h3 : (⌈(timeout - 10) / 10⌉).toNat = n := by omega
    rw [waitLoop]
    simp only [ht, dif_pos]
    by_cases hf : f k
    · simp [hf, pollLoop]
    · simp only [hf, if_false, Bool.false_eq_true]
      rw [ih (timeout - 10) (k + 1) h3]
      simp [pollLoop, hf]

theorem pollLoop_timedOut_iff (f : ℕ → Bool) :
    ∀ N k, (∃ m, pollLoop f N k = .timedOut m) ↔ ∀ i < N, f (k + i) = false := by
  intro N
  induction N with
  | zero => intro k; simp [pollLoop]
  | succ n ih =>
    intro k
    by_cases hf : f k
    · simp [pollLoop, hf]
      exact ⟨0, by omega, by simpa using hf⟩
    · simp only [pollLoop, hf, if_false, Bool.false_eq_true]
      rw [ih (k + 1)]
      constructor
      · intro h i hi
        match i with
        | 0 => simpa using hf
        | j + 1 =>
          have := h j (by omega)
          simpa [Nat.add_comm, Nat.add_left_comm] using this
      · intro h i hi
        have := h (i + 1) (by omega)
        simpa [Nat.add_comm, Nat.add_left_comm] using this

theorem pollLoop_timedOut_evals (f : ℕ → Bool) :
    ∀ N k m, pollLoop f N k = .timedOut m → m = k + N := by
  intro N
  induction N with
  | zero => intro k m h; simp [pollLoop] at h; omega
  | succ n ih =>
    intro k m h
    by_cases hf : f k
    · simp [pollLoop, hf] at h
    · simp only [pollLoop, hf, if_false, Bool.false_eq_true] at h
      have := ih (k + 1) m h
      omega

theorem pollLoop_first_true (f : ℕ → Bool) :
    ∀ N k i, i < N → (∀ j < i, f (k + j) = false) → f (k + i) = true →
      pollLoop f N k = .ok (k + i + 1) := by
  intro N
  induction N with
  | zero => intro k i hi; omega
  | succ n ih =>
    intro k i hi hprev hi_true
    match i with
    | 0 =>
      simp only [Nat.add_zero] at hi_true
      simp [pollLoop, hi_true]
    | j + 1 =>
      have hf0 : f k = false := by simpa using hprev 0 (by omega)
      simp only [pollLoop, hf0, if_false, Bool.false_eq_true]
      have := ih (k + 1) j (by omega)
        (by intro l hl; have := hprev (l + 1) (by omega);
            simpa [Nat.add_comm, Nat.add_left_comm] using this)
        (by simpa [Nat.add_comm, Nat.add_left_comm] using hi_true)
      simpa [Nat.add_comm, Nat.add_left_comm] using this

theorem pollLoop_evals_le (f : ℕ → Bool) :
    ∀ N k, (pollLoop f N k).evals ≤ k + N := by
  intro N
  induction N with
  | zero => intro k; simp [pollLoop, WaitResult.evals]
  | succ n ih =>
    intro k
    by_cases hf : f k
    · simp [pollLoop, hf, WaitResult.evals]
    · simp only [pollLoop, hf, if_false, Bool.false_eq_true]
      have := ih (k + 1)
      omega

/-- Claim C5: `waitUntilSatisfied` polls at a fixed 10 ms interval counted down
by 10 per poll; it throws `Timeout` iff the predicate is falsy on every one of
the `⌈timeout/10⌉` polls (in which case exactly that many falsy evaluations were
made), and it returns normally after `i + 1` evaluations as soon as poll `i` is
the first truthy one within the countdown. -/
theorem waitUntilSatisfied_spec (f : ℕ → Bool) (timeout : ℚ) :
    ((∃ m, waitUntilSatisfied f timeout = .timedOut m) ↔
      ∀ i < (⌈timeout / 10⌉).toNat, f i = false) ∧
    (∀ m, waitUntilSatisfied f timeout = .timedOut m → m = (⌈timeout / 10⌉).toNat) ∧
    (∀ i < (⌈timeout / 10⌉).toNat, (∀ j < i, f j = false) → f i = true →
      waitUntilSatisfied f timeout = .ok (i + 1)) := by
  have hpoll : waitUntilSatisfied f timeout = pollLoop f (⌈timeout / 10⌉).toNat 0 :=
    waitLoop_eq_pollLoop f (⌈timeout / 10⌉).toNat timeout 0 rfl
  refine ⟨?_, ?_, ?_⟩
  · rw [hpoll]
    simpa using pollLoop_timedOut_iff f (⌈timeout / 10⌉).toNat 0
  · intro m hm
    rw [hpoll] at hm
    have := pollLoop_timedOut_evals f (⌈timeout / 10⌉).toNat 0 m hm
    omega
  · intro i hi hprev hit
    rw [hpoll]
    have := pollLoop_first_true f (⌈timeout / 10⌉).toNat 0 i hi
      (by simpa using hprev) (by simpa using hit)
    simpa using this

/-- Witness for claim C5: with a predicate first truthy on poll index 2 and a
45 ms timeout (5 polls), the wait succeeds after 3 evaluations; with an always
falsy predicate it times out after exactly 5 evaluations. -/
theorem waitUntilSatisfied_spec_witness :
    waitUntilSatisfied (fun i => decide (i = 2)) 45 = .ok 3 ∧
      (∀ m, waitUntilSatisfied (fun _ => false) 45 = .timedOut m →
        m = (⌈(45 : ℚ) / 10⌉).toNat) := by
  have h5 : ⌈(45 : ℚ) / 10⌉ = 5 := by
    rw [Int.ceil_eq_iff]
    norm_num
  have hceil : (⌈(45 : ℚ) / 10⌉).toNat = 5 := by
    rw [h5]
    rfl
  constructor
  · have := (waitUntilSatisfied_spec (fun i => decide (i = 2)) 45).2.2 2
      (by rw [hceil]; omega) (by intro j hj; simp; omega) (by simp)
    simpa using this
  · exact (waitUntilSatisfied_spec (fun _ => false) 45).2.1

/-- Claim C10: for any timeout ≤ 0, `waitUntilSatisfied` throws `Timeout`
immediately with zero predicate evaluations; in general the predicate is only
evaluated while the countdown is positive, i.e. at most `⌈timeout/10⌉` times. -/
theorem waitUntilSatisfied_nonpos (f : ℕ → Bool) (timeout : ℚ) :
    (timeout ≤ 0 → waitUntilSatisfied f timeout = .timedOut 0) ∧
    (waitUntilSatisfied f timeout).evals ≤ (⌈timeout / 10⌉).toNat := by
  have hpoll : waitUntilSatisfied f timeout = pollLoop f (⌈timeout / 10⌉).toNat 0 :=
    waitLoop_eq_pollLoop f (⌈timeout / 10⌉).toNat timeout 0 rfl
  constructor
  · intro ht
    unfold waitUntilSatisfied
    rw [waitLoop]
    simp [not_lt.mpr ht]
  · rw [hpoll]
    simpa using pollLoop_evals_le f (⌈timeout / 10⌉).toNat 0

/-- Witness for claim C10: with an always-truthy predicate and timeout `-5`,
the wait still times out with zero evaluations. -/
theorem waitUntilSatisfied_nonpos_witness :
    waitUntilSatisfied (fun _ => true) (-5) = .timedOut 0 :=
  (waitUntilSatisfied_nonpos (fun _ => true) (-5)).1 (by norm_num)

/-! ## Choreography engine: pointer movement (`moveMouseTo` of `src/utils.mjs`)

`Math.sqrt` only enters `moveMouseTo` through `Math.ceil(distance / speed)` and
the `distance === 0` test, so the step count is embedded by an exact-arithmetic
encoding of `⌈√dsq / speed⌉` (proved equal to the real-number expression
below), keeping every definition computable. -/

/-- Floor of the square root of a nonnegative rational, computed exactly:
`⌊√(a/b)⌋ = ⌊√(a·b)⌋ / b`. -/
def ratFloorSqrt (q : ℚ) : ℕ :=
  Nat.sqrt (q.num.toNat * q.den) / q.den

/-- Ceiling of the square root of a nonnegative rational, computed exactly from
`ratFloorSqrt`. -/
def ratCeilSqrt (q : ℚ) : ℕ :=
  if q = ((ratFloorSqrt q : ℚ)) ^ 2 then ratFloorSqrt q else ratFloorSqrt q + 1

theorem ratFloorSqrt_eq (q : ℚ) (hq : 0 ≤ q) :
    (ratFloorSqrt q : ℤ) = ⌊Real.sqrt (q : ℝ)⌋ := by
  set a : ℕ := q.num.toNat with ha
  set b : ℕ := q.den with hb
  have hbpos : 0 < b := q.pos
  have hqr : (q : ℝ) = (a : ℝ) / (b : ℝ) := by
    rw [Rat.cast_def, ha, hb]
    congr 1
    have : ((q.num.toNat : ℤ) : ℝ) = ((q.num : ℤ) : ℝ) := by
      rw [Int.toNat_of_nonneg (Rat.num_nonneg.mpr hq)]
    exact_mod_cast this.symm
  have hsq : Real.sqrt ((q : ℝ)) = Real.sqrt ((a * b : ℕ) : ℝ) / (b : ℝ) := by
    rw [hqr]
    have hb' : (0 : ℝ) < (b : ℝ) := by exact_mod_cast hbpos
    have : (a : ℝ) / (b : ℝ) = ((a * b : ℕ) : ℝ) / ((b : ℝ)) ^ 2 := by
      push_cast
      field_simp
      ring
    rw [this, Real.sqrt_div (by positivity), Real.sqrt_sq hb'.le]
  have hfl : ⌊Real.sqrt ((q : ℝ))⌋₊ = Nat.sqrt (a * b) / b := by
    rw [hsq, Nat.floor_div_nat, Real.nat_floor_real_sqrt_eq_nat_sqrt]
  have hnonneg : (0 : ℝ) ≤ Real.sqrt ((q : ℝ)) := Real.sqrt_nonneg _
  rw [← Int.natCast_floor_eq_floor hnonneg, hfl]
  rfl

theorem ratCeilSqrt_eq (q : ℚ) (hq : 0 ≤ q) :
    (ratCeilSqrt q : ℤ) = ⌈Real.sqrt (q : ℝ)⌉ := by
  have hfl := ratFloorSqrt_eq q hq
  set f : ℕ := ratFloorSqrt q with hf
  unfold ratCeilSqrt
  rw [← hf]
  by_cases hsq : q = ((f : ℚ)) ^ 2
  · have : Real.sqrt ((q : ℝ)) = (f : ℝ) := by
      rw [show ((q : ℚ) : ℝ) = ((f : ℝ)) ^ 2 by exact_mod_cast congrArg (Rat.cast (K := ℝ)) hsq]
      exact Real.sqrt_sq (by positivity)
    rw [if_pos hsq, this]
    have hcast : ((f : ℤ) : ℝ) = (f : ℝ) := by push_cast; ring
    rw [← hcast, Int.ceil_intCast]
  · rw [if_neg hsq]
    have hflo : ((f : ℤ) : ℝ) ≤ Real.sqrt ((q : ℝ)) := by
      rw [hfl]; exact Int.floor_le _
    have hne : Real.sqrt ((q : ℝ)) ≠ (f : ℝ) := by
      intro heq
      apply hsq
      have : ((q : ℚ) : ℝ) = ((f : ℝ)) ^ 2 := by
        rw [← Real.sq_sqrt (by exact_mod_cast hq : (0 : ℝ) ≤ ((q : ℚ) : ℝ)), heq]
      exact_mod_cast this
    have hlt : ((f : ℝ)) < Real.sqrt ((q : ℝ)) := by
      rcases lt_or_eq_of_le (by exact_mod_cast hflo : ((f : ℝ)) ≤ Real.sqrt ((q : ℝ))) with h | h
      · exact h
      · exact absurd h.symm hne
    have hub : Real.sqrt ((q : ℝ)) < ((f : ℝ)) + 1 := by
      have h2 := Int.lt_floor_add_one (Real.sqrt ((q : ℝ)))
      rw [← hfl] at h2
      exact_mod_cast h2
    symm
    rw [Int.ceil_eq_iff]
    constructor
    · push_cast
      simpa using hlt
    · push_cast
      exact hub.le

/-- The module-level mutable `currentMouseX`/`currentMouseY` of `utils(page)`
(`src/utils.mjs`), initialized to `(0, 0)` at session start. -/
structure PointerState where
  currentMouseX : ℚ
  currentMouseY : ℚ
deriving DecidableEq, Repr

/-- JavaScript `Math.round`: round half toward positive infinity. -/
def jsRound (q : ℚ) : ℤ := ⌊q + 1 / 2⌋

/-- `Math.ceil(Math.sqrt(dsq) / speed)` of `moveMouseTo` in exact arithmetic
(`dsq` is the squared Euclidean distance).  For positive `speed` this is
`⌈√dsq / speed⌉`, for negative `speed` it is `-⌊√dsq / -speed⌋`; `speed = 0`
makes the source loop forever (`steps = Infinity`) and is excluded by the
theorems below. -/
def moveStepsInt (dsq speed : ℚ) : ℤ :=
  if 0 < speed then (ratCeilSqrt (dsq / speed ^ 2) : ℤ)
  else -(ratFloorSqrt (dsq / speed ^ 2) : ℤ)

/-- Pointer-move primitives issued by one `moveMouseTo` call: the rounded
intermediate waypoints of the loop, then the final exact move (absent when the
function returns early on zero distance; the unconditional initial move to the
current position is not listed). -/
structure MoveTrace where
  waypoints : List (ℤ × ℤ)
  finalMove : Option (ℚ × ℚ)
deriving DecidableEq, Repr

/-- `moveMouseTo(x, y, {speed})` of `src/utils.mjs`: computes the distance to
the target; returns early when it is zero; otherwise issues
`steps = ceil(distance / speed)` linearly interpolated integer-rounded
waypoints followed by one exact move, and sets the pointer state to `(x, y)`. -/
def moveMouseTo (st : PointerState) (x y speed : ℚ) : PointerState × MoveTrace :=
  let dx := x - st.currentMouseX
  let dy := y - st.currentMouseY
  let dsq := dx ^ 2 + dy ^ 2
  if dsq = 0 then (st, ⟨[], none⟩)
  else
    let steps := moveStepsInt dsq speed
    let xIncr := dx / (steps : ℚ)
    let yIncr := dy / (steps : ℚ)
    (⟨x, y⟩,
      ⟨(List.range steps.toNat).map fun i =>
          (jsRound (st.currentMouseX + ((i : ℕ) + 1) * xIncr),
           jsRound (st.currentMouseY + ((i : ℕ) + 1) * yIncr)),
        some (x, y)⟩)

/-- Claim C2 (amended to positive `speed`): on success `moveMouseTo` leaves the
pointer state at exactly `(x, y)`, the number of intermediate waypoints equals
`⌈distance / speed⌉` with `distance` the Euclidean distance from the start
position, and zero distance yields zero waypoints, no final move and an
unchanged state. -/
theorem moveMouseTo_spec (st : PointerState) (x y speed : ℚ) (hs : 0 < speed) :
    (moveMouseTo st x y speed).1 = ⟨x, y⟩ ∧
    ((moveMouseTo st x y speed).2.waypoints.length : ℤ) =
      ⌈Real.sqrt ((((x - st.currentMouseX) ^ 2 + (y - st.currentMouseY) ^ 2 : ℚ) : ℝ)) /
        ((speed : ℚ) : ℝ)⌉ ∧
    (x = st.currentMouseX ∧ y = st.currentMouseY →
      (moveMouseTo st x y speed).2 = ⟨[], none⟩ ∧ (moveMouseTo st x y speed).1 = st) := by
  obtain ⟨cx, cy⟩ := st
  simp only at *
  by_cases hd : (x - cx) ^ 2 + (y - cy) ^ 2 = 0
  · have h1 : (x - cx) ^ 2 = 0 := by nlinarith [sq_nonneg (x - cx), sq_nonneg (y - cy)]
    have h2 : (y - cy) ^ 2 = 0 := by nlinarith [sq_nonneg (x - cx), sq_nonneg (y - cy)]
    have hx : x = cx := by
      have := sq_eq_zero_iff.mp h1
      linarith [sub_eq_zero.mp this]
    have hy : y = cy := by
      have := sq_eq_zero_iff.mp h2
      linarith [sub_eq_zero.mp this]
    have hmv : moveMouseTo ⟨cx, cy⟩ x y speed = (⟨cx, cy⟩, ⟨[], none⟩) := by
      simp only [moveMouseTo]
      rw [if_pos hd]
    refine ⟨?_, ?_, ?_⟩
    · rw [hmv, hx, hy]
    · rw [hmv]
      have : (((x - cx) ^ 2 + (y - cy) ^ 2 : ℚ) : ℝ) = 0 := by exact_mod_cast hd
      rw [this]
      simp [Real.sqrt_zero]
    · intro _
      rw [hmv]
      exact ⟨rfl, rfl⟩
  · have hq0 : (0 : ℚ) ≤ ((x - cx) ^ 2 + (y - cy) ^ 2) / speed ^ 2 := by positivity
    have hsteps : moveStepsInt ((x - cx) ^ 2 + (y - cy) ^ 2) speed =
        (ratCeilSqrt (((x - cx) ^ 2 + (y - cy) ^ 2) / speed ^ 2) : ℤ) := by
      unfold moveStepsInt
      rw [if_pos hs]
    have hceil : (ratCeilSqrt (((x - cx) ^ 2 + (y - cy) ^ 2) / speed ^ 2) : ℤ) =
        ⌈Real.sqrt ((((x - cx) ^ 2 + (y - cy) ^ 2 : ℚ) : ℝ)) / ((speed : ℚ) : ℝ)⌉ := by
      rw [ratCeilSqrt_eq _ hq0]
      congr 1
      have hcast : (((((x - cx) ^ 2 + (y - cy) ^ 2) / speed ^ 2 : ℚ)) : ℝ) =
          (((x - cx) ^ 2 + (y - cy) ^ 2 : ℚ) : ℝ) / (((speed : ℚ) : ℝ)) ^ 2 := by
        push_cast
        ring
      have hsp : (0 : ℝ) < ((speed : ℚ) : ℝ) := by exact_mod_cast hs
      rw [hcast, Real.sqrt_div (by positivity), Real.sqrt_sq hsp.le]
    have hmv2 : (moveMouseTo ⟨cx, cy⟩ x y speed).1 = ⟨x, y⟩ ∧
        (moveMouseTo ⟨cx, cy⟩ x y speed).2.waypoints.length =
          (moveStepsInt ((x - cx) ^ 2 + (y - cy) ^ 2) speed).toNat := by
      simp only [moveMouseTo]
      rw [if_neg hd]
      exact ⟨rfl, by simp⟩
    refine ⟨hmv2.1, ?_, ?_⟩
    · rw [hmv2.2, hsteps, Int.toNat_natCast]
      exact hceil
    · intro ⟨hx, hy⟩
      exfalso
      apply hd
      rw [hx, hy]
      ring

/-- Witness for claim C2 (amended) at start `(0,0)`, target `(3,4)`, speed 1. -/
theorem moveMouseTo_spec_witness :
    (moveMouseTo ⟨0, 0⟩ 3 4 1).1 = ⟨3, 4⟩ ∧
    ((moveMouseTo ⟨0, 0⟩ 3 4 1).2.waypoints.length : ℤ) =
      ⌈Real.sqrt (((((3 : ℚ) - 0) ^ 2 + ((4 : ℚ) - 0) ^ 2 : ℚ) : ℝ)) / (((1 : ℚ) : ℚ) : ℝ)⌉ ∧
    ((3 : ℚ) = 0 ∧ (4 : ℚ) = 0 →
      (moveMouseTo ⟨0, 0⟩ 3 4 1).2 = ⟨[], none⟩ ∧ (moveMouseTo ⟨0, 0⟩ 3 4 1).1 = ⟨0, 0⟩) :=
  moveMouseTo_spec ⟨0, 0⟩ 3 4 1 (by norm_num)

/-- Counterexample to claim C2 as stated over every speed: with speed `-1`,
start `(0,0)` and target `(3,4)` the source issues zero intermediate waypoints
(the loop bound `Math.ceil(5 / -1) = -5` is negative), whereas
`⌈distance / speed⌉ = -5 ≠ 0`. -/
theorem moveMouseTo_negative_speed_counterexample :
    ¬ (((moveMouseTo ⟨0, 0⟩ 3 4 (-1)).2.waypoints.length : ℤ) =
        ⌈Real.sqrt (((((3 : ℚ) - 0) ^ 2 + ((4 : ℚ) - 0) ^ 2 : ℚ) : ℝ)) / (((-1 : ℚ) : ℚ) : ℝ)⌉) := by
  have hfs : ratFloorSqrt (((3 : ℚ) - 0) ^ 2 + ((4 : ℚ) - 0) ^ 2) = 5 := by
    have h25 : (((3 : ℚ) - 0) ^ 2 + ((4 : ℚ) - 0) ^ 2) = 25 := by norm_num
    rw [h25]
    unfold ratFloorSqrt
    rw [show ((25 : ℚ)).num = 25 from rfl, show ((25 : ℚ)).den = 1 from rfl]
    norm_num
    rw [show Int.toNat 25 = 5 ^ 2 from rfl, Nat.sqrt_eq']
  have hsteps : moveStepsInt (((3 : ℚ) - 0) ^ 2 + ((4 : ℚ) - 0) ^ 2) (-1) = -5 := by
    unfold moveStepsInt
    rw [if_neg (by norm_num)]
    rw [show ((((3 : ℚ) - 0) ^ 2 + ((4 : ℚ) - 0) ^ 2) / (-1 : ℚ) ^ 2) =
      (((3 : ℚ) - 0) ^ 2 + ((4 : ℚ) - 0) ^ 2) by norm_num]
    rw [hfs]
    norm_num
  have hlen : (moveMouseTo ⟨0, 0⟩ 3 4 (-1)).2.waypoints.length = 0 := by
    simp only [moveMouseTo]
    rw [if_neg (by norm_num : ¬(((3 : ℚ) - (0 : ℚ)) ^ 2 + ((4 : ℚ) - (0 : ℚ)) ^ 2 = 0))]
    simp only [List.length_map, List.length_range]
    rw [hsteps]
    rfl
  have hsq : Real.sqrt (((((3 : ℚ) - 0) ^ 2 + ((4 : ℚ) - 0) ^ 2 : ℚ) : ℝ)) = 5 := by
    rw [show (((((3 : ℚ) - 0) ^ 2 + ((4 : ℚ) - 0) ^ 2 : ℚ)) : ℝ) = (5 : ℝ) ^ 2 by
      push_cast; norm_num]
    exact Real.sqrt_sq (by norm_num)
  rw [hlen, hsq]
  rw [show ((((-1 : ℚ) : ℚ)) : ℝ) = -1 by push_cast; ring]
  rw [show (5 : ℝ) / (-1 : ℝ) = ((-5 : ℤ) : ℝ) by norm_num]
  rw [Int.ceil_intCast]
  norm_num

/-! ## Choreography engine: element targeting (`src/utils.mjs`)

The page-control surface is embedded as a static query model: a locator is the
ordered list of boxes of the elements it matches at resolution time, and
`locator.boundingBox()` yields the first match (or nothing for zero matches). -/

/-- A bounding box as returned by the page-control surface. -/
structure Box where
  x : ℚ
  y : ℚ
  width : ℚ
  height : ℚ
deriving DecidableEq, Repr

/-- The page-control surface, as the element queries it answers plus the
current scroll offset and viewport height read by `clickLink`. -/
structure PageModel where
  bySelector : String → List Box
  byText : String → List Box
  scrollY : ℚ
  innerHeight : ℚ

/-- Error kinds surfaced by the targeting operations: `InvalidArgument`
(`"Must provide either selector or text"`) and `NotFound`
(`"Element not found"`). -/
inductive Err
  | invalidArgument
  | notFound
deriving DecidableEq, Repr

/-- The `{selector, text}` option bag taken by the targeting operations;
`none` embeds the source's `null` default. -/
structure TargetOpts where
  selector : Option String
  text : Option String

/-- JavaScript truthiness of a nullable string option: `null` and `""` are
falsy. -/
def strTruthy : Option String → Bool
  | none => false
  | some s => !(s = "")

/-- `optionsToLocator({selector, text})` of `src/utils.mjs`: throws
`InvalidArgument` when neither discriminant is truthy; a truthy `text` wins and
resolves by exact text taking the first match (`.first()`), otherwise the
selector resolves to its match list. -/
def optionsToLocator (page : PageModel) (opts : TargetOpts) : Except Err (List Box) :=
  if strTruthy opts.selector = false ∧ strTruthy opts.text = false then
    Except.error Err.invalidArgument
  else if strTruthy opts.text then
    Except.ok ((page.byText (opts.text.getD "")).take 1)
  else
    Except.ok (page.bySelector (opts.selector.getD ""))

/-- `locator.boundingBox()`: the box of the first matched element, `none` when
the locator matches nothing. -/
def locatorBoundingBox (l : List Box) : Option Box :=
  l.head?

/-- The resolution step shared by the element operations (the spec's
`resolveTarget`): build the locator, read its bounding box, and fail with
`NotFound` (`"Element not found"`) when there is none. -/
def resolveTarget (page : PageModel) (opts : TargetOpts) : Except Err Box :=
  match optionsToLocator page opts with
  | .error e => .error e
  | .ok l =>
    match locatorBoundingBox l with
    | none => .error .notFound
    | some box => .ok box

/-- `moveMouseToElement({selector, text, speed})` of `src/utils.mjs`: resolve
the box, fail with `NotFound` when absent, else move the mouse to its center. -/
def moveMouseToElement (page : PageModel) (st : PointerState) (opts : TargetOpts) (speed : ℚ) :
    Except Err (PointerState × MoveTrace) :=
  match optionsToLocator page opts with
  | .error e => .error e
  | .ok l =>
    match locatorBoundingBox l with
    | none => .error .notFound
    | some box => .ok (moveMouseTo st (box.x + box.width / 2) (box.y + box.height / 2) speed)

/-- The scroll animation issued by `scrollToElement`, reduced to its pure
inputs: the signed scroll distance to vertically center the element, and the
animation duration. -/
structure ScrollTrace where
  scrollDistance : ℚ
  duration : ℚ
deriving DecidableEq, Repr

/-- `scrollToElement({selector, text, locator, duration})` of `src/utils.mjs`:
a supplied locator short-circuits resolution; a missing bounding box throws
`NotFound`; otherwise the page scrolls by
`elementCenterAbsolute - viewportCenterAbsolute` over `duration`. -/
def scrollToElement (page : PageModel) (locator : Option (List Box)) (opts : TargetOpts)
    (duration : ℚ) : Except Err ScrollTrace :=
  match (match locator with
         | some l => Except.ok l
         | none => optionsToLocator page opts) with
  | .error e => .error e
  | .ok l =>
    match locatorBoundingBox l with
    | none => .error .notFound
    | some box =>
      .ok ⟨(box.y + box.height / 2) - (page.scrollY + page.innerHeight / 2), duration⟩

/-- Primitive actions issued by one `clickLink` call, in order. -/
inductive ClickStep
  | scrolled (scrollDistance duration : ℚ)
  | settled (ms : ℚ)
  | boxResolved (b : Box)
  | moved (x y speed : ℚ)
  | cursorHand
  | waited (ms : ℚ)
  | clicked
deriving DecidableEq, Repr

/-- JavaScript `delay || 500` of `clickLink`: `undefined` and `0` fall back to
the default. -/
def jsOrDefault (v : Option ℚ) (d : ℚ) : ℚ :=
  match v with
  | none => d
  | some x => if x = 0 then d else x

/-- The `isOffScreen` test of `clickLink` (`src/utils.mjs`): the element's
bottom lies strictly above the viewport top, or its top strictly below the
viewport bottom. -/
def isOffScreen (box : Box) (scrollY innerHeight : ℚ) : Bool :=
  decide (box.y + box.height < scrollY) || decide (box.y > scrollY + innerHeight)

/-- `clickLink({delay, mouseSpeed, scrollDuration, ...options})` of
`src/utils.mjs`: resolve the locator once; fail `NotFound` without a box; when
the element is off screen, run `scrollToElement` on the shared locator and
settle 100 ms; re-read the bounding box unconditionally; then move to the
center, switch the cursor to "hand", wait `delay || 500` and click. -/
def clickLink (page : PageModel) (opts : TargetOpts) (delay : Option ℚ)
    (mouseSpeed scrollDuration : ℚ) : Except Err (List ClickStep) :=
  match optionsToLocator page opts with
  | .error e => .error e
  | .ok l =>
    match locatorBoundingBox l with
    | none => .error .notFound
    | some box =>
      let preE : Except Err (List ClickStep) :=
        if isOffScreen box page.scrollY page.innerHeight then
          match scrollToElement page (some l) ⟨none, none⟩ scrollDuration with
          | Except.error e => Except.error e
          | Except.ok s => Except.ok [ClickStep.scrolled s.scrollDistance s.duration,
                                      ClickStep.settled 100]
        else Except.ok []
      match preE with
      | Except.error e => Except.error e
      | Except.ok pre =>
        match locatorBoundingBox l with
        | none => .error .notFound
        | some box2 =>
          .ok (pre ++ [ClickStep.boxResolved box2,
            ClickStep.moved (box2.x + box2.width / 2) (box2.y + box2.height / 2) mouseSpeed,
            ClickStep.cursorHand, ClickStep.waited (jsOrDefault delay 500), ClickStep.clicked])

/-- Page-control surface primitive used by `fillIn`
(`locator.pressSequentially(text, {delay})`).  Modelled from the spec: typing
into a locator that resolves to zero elements fails with `NotFound`; on a match
it issues one keystroke per character with `delay` between them.  The concrete
typing primitive lives in the external browser library, not in this
repository. -/
def pressSequentially (l : List Box) (text : String) (delay : ℚ) :
    Except Err (List (Char × ℚ)) :=
  if l.isEmpty then Except.error Err.notFound
  else Except.ok (text.toList.map fun c => (c, delay))

/-- `fillIn({selector, text, delay})` of `src/utils.mjs` (default delay 100 in
the source): type `text` into the locator of `selector` one character at a
time. -/
def fillIn (page : PageModel) (selector text : String) (delay : ℚ) :
    Except Err (List (Char × ℚ)) :=
  pressSequentially (page.bySelector selector) text delay

theorem icc_inter_empty_iff (a b c d : ℚ) (hab : a ≤ b) (hcd : c ≤ d) :
    Set.Icc a b ∩ Set.Icc c d = ∅ ↔ (b < c ∨ d < a) := by
  constructor
  · intro h
    by_contra hcon
    push_neg at hcon
    obtain ⟨h1, h2⟩ := hcon
    have hmem : max a c ∈ Set.Icc a b ∩ Set.Icc c d := by
      refine ⟨⟨le_max_left a c, max_le hab h1⟩, ⟨le_max_right a c, max_le h2 hcd⟩⟩
    rw [h] at hmem
    exact absurd hmem (Set.not_mem_empty _)
  · intro h
    rw [Set.eq_empty_iff_forall_not_mem]
    rintro t ⟨⟨hta, htb⟩, htc, htd⟩
    rcases h with h | h <;> linarith

/-- Claim C3: `clickLink` performs the scroll (followed by the 100 ms settle
and the bounding-box re-resolution) iff the element's vertical span
`[top, bottom]` is disjoint from the visible range `[scrollY, scrollY +
innerHeight]`; otherwise the trace goes straight to the re-resolved box and the
pointer move, with no scroll. -/
theorem clickLink_scrolls_iff (page : PageModel) (opts : TargetOpts) (delay : Option ℚ)
    (mouseSpeed scrollDuration : ℚ) (l : List Box) (box : Box)
    (hloc : optionsToLocator page opts = Except.ok l)
    (hhead : l.head? = some box)
    (hbh : 0 ≤ box.height) (hvh : 0 ≤ page.innerHeight) :
    (isOffScreen box page.scrollY page.innerHeight = true ↔
      Set.Icc box.y (box.y + box.height) ∩
        Set.Icc page.scrollY (page.scrollY + page.innerHeight) = ∅) ∧
    clickLink page opts delay mouseSpeed scrollDuration =
      Except.ok ((if isOffScreen box page.scrollY page.innerHeight then
          [ClickStep.scrolled ((box.y + box.height / 2) - (page.scrollY + page.innerHeight / 2))
              scrollDuration,
           ClickStep.settled 100]
        else []) ++
        [ClickStep.boxResolved box,
         ClickStep.moved (box.x + box.width / 2) (box.y + box.height / 2) mouseSpeed,
         ClickStep.cursorHand, ClickStep.waited (jsOrDefault delay 500), ClickStep.clicked]) := by
  constructor
  · rw [icc_inter_empty_iff _ _ _ _ (by linarith) (by linarith)]
    unfold isOffScreen
    simp [Bool.or_eq_true, decide_eq_true_eq, gt_iff_lt]
  · by_cases hoff : isOffScreen box page.scrollY page.innerHeight = true
    · simp only [clickLink, hloc, locatorBoundingBox, hhead, scrollToElement, hoff, if_true]
    · simp only [clickLink, hloc, locatorBoundingBox, hhead, scrollToElement,
        Bool.not_eq_true] at hoff ⊢
      simp only [hoff, Bool.false_eq_true, if_false]

/-- Witness for claim C3: a page scrolled to the top with a 1000-px viewport
and a single link whose box starts at `y = 2000` (fully below the fold) scrolls
before moving; the disjointness characterization holds at the same input. -/
theorem clickLink_scrolls_iff_witness :
    (isOffScreen ⟨0, 2000, 100, 20⟩ 0 1000 = true ↔
      Set.Icc (2000 : ℚ) (2000 + 20) ∩ Set.Icc (0 : ℚ) (0 + 1000) = ∅) ∧
    clickLink ⟨fun _ => [⟨0, 2000, 100, 20⟩], fun _ => [], 0, 1000⟩ ⟨some "a", none⟩ none 10 500 =
      Except.ok ((if isOffScreen ⟨0, 2000, 100, 20⟩ 0 1000 then
          [ClickStep.scrolled ((2000 + 20 / 2) - (0 + 1000 / 2)) 500, ClickStep.settled 100]
        else []) ++
        [ClickStep.boxResolved ⟨0, 2000, 100, 20⟩,
         ClickStep.moved (0 + 100 / 2) (2000 + 20 / 2) 10,
         ClickStep.cursorHand, ClickStep.waited (jsOrDefault none 500), ClickStep.clicked]) :=
  clickLink_scrolls_iff ⟨fun _ => [⟨0, 2000, 100, 20⟩], fun _ => [], 0, 1000⟩ ⟨some "a", none⟩
    none 10 500 [⟨0, 2000, 100, 20⟩] ⟨0, 2000, 100, 20⟩ rfl rfl (by norm_num) (by norm_num)

/-- Claim C6: whenever the built locator resolves to zero elements, each of
`resolveTarget`, `moveMouseToElement`, `scrollToElement`, `clickLink` fails with
`NotFound`; `fillIn` on a selector matching zero elements fails with `NotFound`
through the typing primitive. -/
theorem zero_matches_not_found (page : PageModel) (st : PointerState) (opts : TargetOpts)
    (speed duration mouseSpeed scrollDuration typeDelay : ℚ) (delay : Option ℚ)
    (sel txt : String)
    (hloc : optionsToLocator page opts = Except.ok [])
    (hsel : page.bySelector sel = []) :
    resolveTarget page opts = Except.error Err.notFound ∧
    moveMouseToElement page st opts speed = Except.error Err.notFound ∧
    scrollToElement page none opts duration = Except.error Err.notFound ∧
    clickLink page opts delay mouseSpeed scrollDuration = Except.error Err.notFound ∧
    fillIn page sel txt typeDelay = Except.error Err.notFound := by
  refine ⟨?_, ?_, ?_, ?_, ?_⟩
  · unfold resolveTarget
    rw [hloc]
    rfl
  · unfold moveMouseToElement
    rw [hloc]
    rfl
  · unfold scrollToElement
    rw [hloc]
    rfl
  · unfold clickLink
    rw [hloc]
    rfl
  · unfold fillIn
    rw [hsel]
    rfl

/-- Witness for claim C6 on an empty page with selector target `"a"`. -/
theorem zero_matches_not_found_witness :
    resolveTarget ⟨fun _ => [], fun _ => [], 0, 0⟩ ⟨some "a", none⟩ =
        Except.error Err.notFound ∧
    moveMouseToElement ⟨fun _ => [], fun _ => [], 0, 0⟩ ⟨0, 0⟩ ⟨some "a", none⟩ 10 =
        Except.error Err.notFound ∧
    scrollToElement ⟨fun _ => [], fun _ => [], 0, 0⟩ none ⟨some "a", none⟩ 500 =
        Except.error Err.notFound ∧
    clickLink ⟨fun _ => [], fun _ => [], 0, 0⟩ ⟨some "a", none⟩ none 10 500 =
        Except.error Err.notFound ∧
    fillIn ⟨fun _ => [], fun _ => [], 0, 0⟩ "input" "hello" 100 =
        Except.error Err.notFound :=
  zero_matches_not_found ⟨fun _ => [], fun _ => [], 0, 0⟩ ⟨0, 0⟩ ⟨some "a", none⟩
    10 500 10 500 100 none "input" "hello" rfl rfl

end PlaywrightVideo
